import Mathlib

/-!
Verification development for the mindmap-pwa capture pipeline
(offline queue store, sync engine, error classifier, write protocol,
quick-add token parser), shallowly embedded from the TypeScript sources
`src/offlineQueue.ts`, `src/lib/nodeWrites.ts` and `src/lib/quickAddParse.ts`.

Conventions of the embedding:
* `localStorage` contents are modelled at the JSON-value level: the stored
  raw string is either absent/empty (falsy), a string `JSON.parse` rejects,
  or a string parsing to a JSON tree.  `JSON.stringify` followed by
  `JSON.parse` is the identity on JSON trees, so a write is modelled as
  storing the tree itself.
* JavaScript numbers that the code ever compares or stores (epoch
  milliseconds, attempt counters, HTTP status) are integers, modelled as
  `Int`.
* Effects (crypto ids, `Date.now()`, the Supabase network calls) are
  passed in explicitly as parameters / oracles.
-/

namespace MindmapPwa

/-- A JSON value, as produced by `JSON.parse`. -/
inductive Json where
  | null
  | bool (b : Bool)
  | num (n : Int)
  | str (s : String)
  | arr (elems : List Json)
  | obj (fields : List (String × Json))

/-- Object-field lookup, as JavaScript property access on a parsed object:
the last binding of a duplicated key wins; non-objects have no string
fields (property access yields `undefined`, modelled as `none`). -/
def jsonField (v : Json) (key : String) : Option Json :=
  match v with
  | .obj fields => (fields.reverse.find? (fun p => p.1 == key)).map (fun p => p.2)
  | _ => none

/-- `typeof x === 'string'` on the (possibly absent) value of a field. -/
def fieldIsString (v : Option Json) : Bool :=
  match v with
  | some (.str _) => true
  | _ => false

/-- `typeof x === 'number'` on the (possibly absent) value of a field. -/
def fieldIsNumber (v : Option Json) : Bool :=
  match v with
  | some (.num _) => true
  | _ => false

/-- `!value || typeof value !== 'object'` is false, i.e. the value is a
truthy JavaScript object.  `null` is falsy (despite `typeof null` being
`'object'`); arrays are objects. -/
def isTruthyObject (v : Json) : Bool :=
  match v with
  | .arr _ => true
  | .obj _ => true
  | _ => false

/-- `isQueueItem` from `src/offlineQueue.ts`: a stored element is kept iff
it is a truthy object whose `id` is a string and whose `createdAt` and
`attempts` are numbers.  (The `payload` field is not inspected.)  An array
passes the `typeof` test but has none of the string fields, so it fails the
field checks, exactly as in the source. -/
def isQueueItem (v : Json) : Bool :=
  isTruthyObject v &&
    fieldIsString (jsonField v "id") &&
    fieldIsNumber (jsonField v "createdAt") &&
    fieldIsNumber (jsonField v "attempts")

/-- The raw contents of `localStorage` under the queue key, as seen by
`readQueue`: absent or empty string (falsy), a string `JSON.parse` throws
on, or a string that parses to a JSON tree. -/
inductive StoredRaw where
  | empty
  | corrupted
  | parsed (j : Json)

/-- `readQueue` from `src/offlineQueue.ts`: falsy raw data and parse
errors degrade to `[]`; a parsed non-array degrades to `[]`; a parsed
array is filtered through `isQueueItem`. -/
def readQueue (stored : StoredRaw) : List Json :=
  match stored with
  | .empty => []
  | .corrupted => []
  | .parsed j =>
    match j with
    | .arr elems => elems.filter isQueueItem
    | _ => []

/-- `'idea' | 'task'` (`NodeType` in `src/lib/nodeWrites.ts`). -/
inductive NodeType where
  | idea
  | task
deriving DecidableEq, Repr

/-- `'low' | 'medium' | 'high'` (`Energy` in `src/lib/nodeWrites.ts`). -/
inductive Energy where
  | low
  | medium
  | high
deriving DecidableEq, Repr

/-- `NodeWritePayload` from `src/lib/nodeWrites.ts`.  Fields typed
`T | null` in the source are `Option T` here (`none` = `null`). -/
structure NodeWritePayload where
  nodeType : NodeType
  title : String
  body : String
  tags : List String
  status : String
  context : Option String
  energy : Option Energy
  duration_minutes : Option Int
  due_at : Option String
deriving DecidableEq, Repr

def encodeNodeType : NodeType → Json
  | .idea => .str "idea"
  | .task => .str "task"

def encodeEnergy : Energy → Json
  | .low => .str "low"
  | .medium => .str "medium"
  | .high => .str "high"

/-- A nullable field serialises to `null` or the encoded value. -/
def encodeNullable (f : α → Json) : Option α → Json
  | none => .null
  | some a => f a

/-- The JSON tree `JSON.stringify` produces for a `NodeWritePayload`
(field order as in the TypeScript object type). -/
def encodePayload (p : NodeWritePayload) : Json :=
  .obj [("type", encodeNodeType p.nodeType),
        ("title", .str p.title),
        ("body", .str p.body),
        ("tags", .arr (p.tags.map .str)),
        ("status", .str p.status),
        ("context", encodeNullable .str p.context),
        ("energy", encodeNullable encodeEnergy p.energy),
        ("duration_minutes", encodeNullable .num p.duration_minutes),
        ("due_at", encodeNullable .str p.due_at)]

/-- The JSON tree for a freshly enqueued `OfflineQueueItem`
(`enqueuePayload` builds `{ id, createdAt, payload, attempts: 0 }`, adding
`lastError` only when the argument is truthy, i.e. a non-empty string). -/
def encodeNewItem (payload : NodeWritePayload) (newId : String) (now : Int)
    (lastError : Option String) : Json :=
  .obj ([("id", .str newId),
         ("createdAt", .num now),
         ("payload", encodePayload payload),
         ("attempts", .num 0)] ++
        (match lastError with
         | some e => if e = "" then [] else [("lastError", .str e)]
         | none => []))

/-- `enqueuePayload` from `src/offlineQueue.ts`: read the queue, push the
new item, write the whole collection back under the same key.  The fresh
id and the current time are passed in explicitly.  Returns the new stored
state together with the pushed element. -/
def enqueuePayload (stored : StoredRaw) (payload : NodeWritePayload)
    (newId : String) (now : Int) (lastError : Option String) :
    StoredRaw × Json :=
  let items := readQueue stored
  let item := encodeNewItem payload newId now lastError
  (.parsed (.arr (items ++ [item])), item)

theorem isQueueItem_encodeNewItem (payload : NodeWritePayload) (newId : String)
    (now : Int) (lastError : Option String) :
    isQueueItem (encodeNewItem payload newId now lastError) = true := by
  cases lastError with
  | none => rfl
  | some e =>
    by_cases he : e = "" <;>
      simp [encodeNewItem, isQueueItem, isTruthyObject, jsonField, fieldIsString,
        fieldIsNumber, he, List.find?]

theorem jsonField_encodeNewItem_payload (payload : NodeWritePayload)
    (newId : String) (now : Int) (lastError : Option String) :
    jsonField (encodeNewItem payload newId now lastError) "payload" =
      some (encodePayload payload) := by
  cases lastError with
  | none => rfl
  | some e =>
    by_cases he : e = "" <;>
      simp [encodeNewItem, jsonField, he, List.find?]

/-- A stored element carrying `id`, `createdAt` and `attempts` but no
`payload` field (plus an unknown extra field). -/
def noPayloadElement : Json :=
  .obj [("id", .str "a"), ("createdAt", .num 0), ("attempts", .num 0),
        ("extra", .bool true)]

/-- **C6 counterexample**: the claim says an element missing any of the
required persistence-schema fields — `payload` among them — is dropped on
read; but `isQueueItem` never inspects `payload`, so an element without a
`payload` field is retained by `readQueue`. -/
theorem c6_counterexample_missing_payload_not_dropped :
    readQueue (.parsed (.arr [noPayloadElement])) = [noPayloadElement] ∧
    jsonField noPayloadElement "payload" = none :=
  ⟨rfl, rfl⟩

/-- **C6 (amended)**: reading the persisted queue never propagates a parse
error — absent/corrupted data and non-array data yield the empty queue —
and a stored element is retained exactly when its `id` is a string and its
`createdAt` and `attempts` are numbers; the `payload` field is not
validated, and unknown extra fields do not affect retention. -/
theorem c6_robust_read :
    (readQueue .empty = [] ∧ readQueue .corrupted = []) ∧
    (∀ j : Json, (∀ elems, j ≠ .arr elems) → readQueue (.parsed j) = []) ∧
    (∀ (elems : List Json) (j : Json), j ∈ readQueue (.parsed (.arr elems)) →
      j ∈ elems ∧ fieldIsString (jsonField j "id") = true ∧
        fieldIsNumber (jsonField j "createdAt") = true ∧
        fieldIsNumber (jsonField j "attempts") = true) ∧
    (∀ (elems : List Json) (j : Json), j ∈ elems →
      fieldIsString (jsonField j "id") = true →
      fieldIsNumber (jsonField j "createdAt") = true →
      fieldIsNumber (jsonField j "attempts") = true →
      j ∈ readQueue (.parsed (.arr elems))) := by
  refine ⟨⟨rfl, rfl⟩, ?_, ?_, ?_⟩
  · intro j hj
    cases j with
    | arr elems => exact absurd rfl (hj elems)
    | _ => rfl
  · intro elems j hj
    rw [readQueue, List.mem_filter] at hj
    obtain ⟨hmem, hitem⟩ := hj
    rw [isQueueItem] at hitem
    simp only [Bool.and_eq_true] at hitem
    obtain ⟨⟨⟨_, hid⟩, hc⟩, ha⟩ := hitem
    exact ⟨hmem, hid, hc, ha⟩
  · intro elems j hmem hid hcreated hattempts
    have hobj : isTruthyObject j = true := by
      cases j with
      | obj fields => rfl
      | _ => simp [jsonField, fieldIsString] at hid
    rw [readQueue, List.mem_filter]
    exact ⟨hmem, by rw [isQueueItem]; simp [hobj, hid, hcreated, hattempts]⟩

/-- **C6 witness**: the amended retention rule applied at a concrete
element that has the three checked fields plus an extra field. -/
theorem c6_robust_read_witness :
    noPayloadElement ∈ readQueue (.parsed (.arr [noPayloadElement])) :=
  c6_robust_read.2.2.2 [noPayloadElement] noPayloadElement
    (List.mem_singleton.mpr rfl) rfl rfl rfl

/-- **C1** (queue durability round-trip): for every prior stored state and
every payload, enqueueing the payload and then re-reading the queue afresh
from the same backing key (a simulated restart) yields a list containing
an entry whose `payload` field is exactly the serialised payload. -/
theorem c1_enqueue_then_reload_contains_payload
    (stored : StoredRaw) (payload : NodeWritePayload) (newId : String)
    (now : Int) (lastError : Option String) :
    ∃ j ∈ readQueue (enqueuePayload stored payload newId now lastError).1,
      jsonField j "payload" = some (encodePayload payload) := by
  refine ⟨encodeNewItem payload newId now lastError, ?_, jsonField_encodeNewItem_payload ..⟩
  simp [enqueuePayload, readQueue, List.mem_filter,
    isQueueItem_encodeNewItem]

/-! ### JavaScript string helpers

JS `String.prototype.toLowerCase` is modelled with `Char.toLower`
(the ASCII mapping; every string the classifier and parser compare against
is ASCII).  `includes` is substring containment over the character list. -/

/-- Does `hay` start with `needle`? (character-list version of JS
`String.prototype.startsWith`). -/
def charsHasPrefix : List Char → List Char → Bool
  | [], _ => true
  | _ :: _, [] => false
  | a :: as, b :: bs => a == b && charsHasPrefix as bs

/-- Does `hay` contain `needle` as a contiguous run? -/
def charsIncludes (needle : List Char) : List Char → Bool
  | [] => needle.isEmpty
  | c :: rest => charsHasPrefix needle (c :: rest) || charsIncludes needle rest

/-- JS `hay.includes(needle)`. -/
def strIncludes (hay needle : String) : Bool :=
  charsIncludes needle.data hay.data

/-- JS `s.toLowerCase()` (ASCII case mapping). -/
def jsToLower (s : String) : String :=
  ⟨s.data.map Char.toLower⟩

/-! ### Error classifier (`isValidationError` / `shouldQueueError`) -/

/-- A JavaScript runtime value as probed by the error classifier: the
`unknown` caught value can be `undefined`, `null`, a primitive, or an
object.  `isError` records whether the object is an `Error` instance
(`instanceof Error`). -/
inductive JSValue where
  | undef
  | null
  | boolean (b : Bool)
  | number (n : Int)
  | string (s : String)
  | object (isError : Bool) (fields : List (String × JSValue))

/-- JS truthiness test `!v` (true exactly on the falsy values). -/
def jsFalsy : JSValue → Bool
  | .undef => true
  | .null => true
  | .boolean b => !b
  | .number n => n == 0
  | .string s => s == ""
  | .object _ _ => false

/-- JS `typeof v`. -/
def jsTypeof : JSValue → String
  | .undef => "undefined"
  | .null => "object"
  | .boolean _ => "boolean"
  | .number _ => "number"
  | .string _ => "string"
  | .object _ _ => "object"

/-- Property access `v[key]` on a runtime value (`undefined`, i.e. `none`,
off objects; last binding of a duplicated key wins). -/
def jsvField (v : JSValue) (key : String) : Option JSValue :=
  match v with
  | .object _ fields => (fields.reverse.find? (fun p => p.1 == key)).map (fun p => p.2)
  | _ => none

mutual

/-- `JSON.stringify` on the modelled value shapes.  (On `undefined`,
`JSON.stringify` yields the `undefined` value, coerced to the string
`"undefined"` here; no input of interest reaches that case.  String
escaping is elided: no probed substring contains a quote.) -/
def jsStringify : JSValue → String
  | .undef => "undefined"
  | .null => "null"
  | .boolean b => cond b "true" "false"
  | .number n => toString n
  | .string s => "\"" ++ s ++ "\""
  | .object _ fields =>
    "\x7b" ++ String.intercalate "," (jsStringifyFields fields) ++ "\x7d"

def jsStringifyFields : List (String × JSValue) → List String
  | [] => []
  | (k, v) :: rest => ("\"" ++ k ++ "\":" ++ jsStringify v) :: jsStringifyFields rest

end

/-- `error instanceof Error && error.message` as used by `errorToString`:
the message of an `Error` instance when it is a truthy (non-empty) string.
(A real `Error`'s `message` is always a string.) -/
def truthyErrorMessage (error : JSValue) : Option String :=
  match error with
  | .object true fields =>
    match (fields.reverse.find? (fun p => p.1 == "message")).map (fun p => p.2) with
    | some (JSValue.string m) => if m = "" then none else some m
    | _ => none
  | _ => none

/-- `errorToString` from `src/lib/nodeWrites.ts`: an `Error`'s truthy
message, else a string as-is, else `JSON.stringify` (which cannot throw on
the modelled value shapes, so the `String(error)` catch is unreachable). -/
def errorToString (error : JSValue) : String :=
  match truthyErrorMessage error with
  | some m => m
  | none =>
    match error with
    | .string s => s
    | _ => jsStringify error

/-- The Postgres error codes recognised as data-validation failures
(not-null, check-constraint, malformed-literal, length). -/
def validationCodes : List String :=
  ["23502", "23514", "22P02", "22001"]

/-- `isValidationError` from `src/offlineQueue.ts`: falsy or non-object
values are not validation errors; otherwise the `code` property must be
truthy and a member of `validationCodes`.  (A truthy non-string `code`
also yields `false`: `Set<string>.has` never matches it.) -/
def isValidationError (error : JSValue) : Bool :=
  if jsFalsy error || jsTypeof error != "object" then false
  else
    match jsvField error "code" with
    | some (.string c) => if c = "" then false else validationCodes.contains c
    | _ => false

/-- `shouldQueueError` from `src/offlineQueue.ts`.  After the falsy and
validation-error guards, every remaining path returns `true`: the
network-message and `status >= 500` probes only decide which `return true`
runs. -/
def shouldQueueError (error : JSValue) : Bool :=
  if jsFalsy error then false
  else if isValidationError error then false
  else
    let message := jsToLower (errorToString error)
    if strIncludes message "failed to fetch" || strIncludes message "network" ||
        strIncludes message "offline" then true
    else
      if (match jsvField error "status" with
          | some (.number status) => decide (500 ≤ status)
          | _ => false) then true
      else true

/-- **C4 counterexample**: the claim says every error value without a
recognized validation signature is classified Transient (queued); but the
classifier's first guard sends the falsy value `null` — which carries no
validation signature — to "do not queue". -/
theorem c4_counterexample_null_not_queued :
    shouldQueueError .null = false ∧ isValidationError .null = false :=
  ⟨rfl, rfl⟩

/-- **C4 (amended)**: classification is total with a fail-open default,
except that falsy error values are also not queued: an error is queued for
retry exactly when it is truthy and carries none of the recognized
data-validation signatures, where carrying a signature means having a
non-empty string `code` property among the four recognized codes. -/
theorem c4_classifier_total_fail_open :
    (∀ v : JSValue, shouldQueueError v = (!jsFalsy v && !isValidationError v)) ∧
    (∀ v : JSValue, isValidationError v = true ↔
      ∃ c, jsvField v "code" = some (.string c) ∧ c ≠ "" ∧ c ∈ validationCodes) := by
  constructor
  · intro v
    unfold shouldQueueError
    by_cases h1 : jsFalsy v <;> by_cases h2 : isValidationError v <;>
      simp [h1, h2]
  · intro v
    unfold isValidationError
    cases v with
    | object e fields =>
      simp only [jsFalsy, jsTypeof, jsvField]
      rw [if_neg (by simp)]
      cases hf : (List.find? (fun p => p.1 == "code") fields.reverse) with
      | none => simp [hf]
      | some p =>
        obtain ⟨k, val⟩ := p
        cases val <;> simp [hf]
    | _ => simp [jsFalsy, jsTypeof, jsvField]

/-- **C4 witness**: the amended classification evaluated at a concrete
truthy, non-validation error object (a 503). -/
theorem c4_classifier_total_fail_open_witness :
    shouldQueueError (.object false [("status", .number 503)]) =
      (!jsFalsy (.object false [("status", .number 503)]) &&
        !isValidationError (.object false [("status", .number 503)])) :=
  c4_classifier_total_fail_open.1 (.object false [("status", .number 503)])

/-! ### Write protocol (`createNodeWithTags` from `src/lib/nodeWrites.ts`)

The two remote collaborators (node insert; per-tag upsert + link) are
external effects, passed in as an oracle.  A thrown `SaveNodeError` is
modelled as `Except.error`. -/

/-- The `stage` discriminator of a `SaveNodeError`. -/
inductive SaveStage where
  | node
  | tag
deriving DecidableEq, Repr

/-- `SaveNodeError` (`wrapSaveError` output): an `Error` whose `message`
is `errorToString` of the underlying remote error, tagged with the failing
stage.  The `original` field is dropped: nothing reads it. -/
structure SaveNodeError where
  message : String
  stage : SaveStage
deriving DecidableEq, Repr

/-- Outcome of one tag's remote round-trip: the upsert can fail, else the
link upsert can fail, else the tag is fully linked.  Failures carry the
remote error's `message`. -/
inductive TagStepResult where
  | upsertFail (message : String)
  | linkFail (message : String)
  | ok
deriving DecidableEq, Repr

/-- One call's worth of remote behaviour: the node-insert result (error
message, or the new node id from `.select('id').single()`), and the
outcome for the tag at each position of the payload's tag list. -/
structure RemoteAttempt where
  nodeRes : Except String String
  tagSteps : Nat → TagStepResult

/-- Did the node insert succeed? -/
def nodeOk (r : RemoteAttempt) : Bool :=
  match r.nodeRes with
  | .ok _ => true
  | .error _ => false

/-- The node-insert error message (meaningful only when `nodeOk` is false). -/
def nodeErrMsg (r : RemoteAttempt) : String :=
  match r.nodeRes with
  | .ok _ => ""
  | .error m => m

/-- The tag loop of `createNodeWithTags`: for each tag in order, upsert
then link; an error is collected and skipped when `allowPartialTags`,
thrown (as a tag-stage `SaveNodeError`) otherwise. -/
def runTags (allowPartialTags : Bool) (tagSteps : Nat → TagStepResult) :
    Nat → List String → Except SaveNodeError (List String)
  | _, [] => .ok []
  | i, _tag :: rest =>
    match tagSteps i with
    | .ok => runTags allowPartialTags tagSteps (i + 1) rest
    | .upsertFail m =>
      if allowPartialTags then
        match runTags allowPartialTags tagSteps (i + 1) rest with
        | .ok errs => .ok (m :: errs)
        | .error e => .error e
      else .error ⟨m, .tag⟩
    | .linkFail m =>
      if allowPartialTags then
        match runTags allowPartialTags tagSteps (i + 1) rest with
        | .ok errs => .ok (m :: errs)
        | .error e => .error e
      else .error ⟨m, .tag⟩

/-- `createNodeWithTags`: insert the node (a failure is thrown as a
node-stage error and nothing further is attempted), then run the tag
loop; on success return the node id with the collected tag errors. -/
def createNodeWithTags (remote : RemoteAttempt) (payload : NodeWritePayload)
    (allowPartialTags : Bool) : Except SaveNodeError (String × List String) :=
  match remote.nodeRes with
  | .error e => .error ⟨e, .node⟩
  | .ok nodeId =>
    match runTags allowPartialTags remote.tagSteps 0 payload.tags with
    | .ok errs => .ok (nodeId, errs)
    | .error e => .error e

/-- The tag-error messages the tolerant mode collects: one message per
failing tag position, in tag order. -/
def tagErrorsOf (tagSteps : Nat → TagStepResult) : Nat → List String → List String
  | _, [] => []
  | i, _ :: rest =>
    match tagSteps i with
    | .ok => tagErrorsOf tagSteps (i + 1) rest
    | .upsertFail m => m :: tagErrorsOf tagSteps (i + 1) rest
    | .linkFail m => m :: tagErrorsOf tagSteps (i + 1) rest

theorem runTags_tolerant (tagSteps : Nat → TagStepResult) :
    ∀ (i : Nat) (tags : List String),
      runTags true tagSteps i tags = .ok (tagErrorsOf tagSteps i tags) := by
  intro i tags
  induction tags generalizing i with
  | nil => rfl
  | cons t rest ih =>
    rw [runTags, tagErrorsOf]
    cases tagSteps i <;> simp [ih]

/-- Tolerant mode is throw-free past the node insert: the call reduces to
the node-insert outcome, with tag failures folded into the `tagErrors`
list. -/
theorem createNodeWithTags_tolerant (remote : RemoteAttempt)
    (payload : NodeWritePayload) :
    createNodeWithTags remote payload true =
      match remote.nodeRes with
      | .ok nodeId => .ok (nodeId, tagErrorsOf remote.tagSteps 0 payload.tags)
      | .error e => .error ⟨e, .node⟩ := by
  rw [createNodeWithTags]
  cases remote.nodeRes with
  | error e => rfl
  | ok nodeId => rw [runTags_tolerant]

/-! ### Sync engine (`syncOfflineQueue` from `src/offlineQueue.ts`) -/

/-- `OfflineQueueItem`, the typed shape of one queue entry. -/
structure OfflineQueueItem where
  id : String
  createdAt : Int
  payload : NodeWritePayload
  lastError : Option String
  attempts : Int
deriving DecidableEq, Repr

/-- `errorToString` applied to a thrown `SaveNodeError`: an `Error`
instance with a truthy message yields the message; with an empty message
it falls through to `JSON.stringify`, which renders an `Error`'s
(non-enumerable) own properties as an empty object. -/
def thrownErrorToString (e : SaveNodeError) : String :=
  if e.message = "" then "\x7b\x7d" else e.message

/-- The failure update the sync loop maps over the queue: entries sharing
the failed item's id get `attempts + 1` and the stringified error as
`lastError`; all others are returned unchanged. -/
def failUpdate (itemId : String) (msg : String) (q : OfflineQueueItem) :
    OfflineQueueItem :=
  if q.id == itemId then { q with attempts := q.attempts + 1, lastError := some msg }
  else q

/-- Output of the sync loop.  The source keeps only the count of attempted
items; the model additionally records the attempted items themselves, in
call order — the count is their length. -/
structure SyncLoopOut where
  attemptedItems : List OfflineQueueItem
  synced : Nat
  queue : List OfflineQueueItem
deriving DecidableEq, Repr

/-- The `for (const item of items)` loop of `syncOfflineQueue`: `toGo` is
the part of the snapshot not yet iterated, `attempted` the counter (also
the oracle call index), `queue` the working copy.  The `break` at
`attempted >= maxItems` is the early return; a successful tolerant write
filters the item's id out of the whole queue, a thrown error maps the
failure update over the whole queue.  (The `console.warn` on a nonempty
`tagErrors` has no effect on the state.) -/
def syncGo (remote : Nat → RemoteAttempt) (maxItems : Nat) :
    List OfflineQueueItem → Nat → List OfflineQueueItem → SyncLoopOut
  | [], _, queue => ⟨[], 0, queue⟩
  | item :: rest, attempted, queue =>
    if maxItems ≤ attempted then ⟨[], 0, queue⟩
    else
      match createNodeWithTags (remote attempted) item.payload true with
      | .ok _ =>
        let r := syncGo remote maxItems rest (attempted + 1)
          (queue.filter (fun q => q.id != item.id))
        ⟨item :: r.attemptedItems, r.synced + 1, r.queue⟩
      | .error e =>
        let r := syncGo remote maxItems rest (attempted + 1)
          (queue.map (failUpdate item.id (thrownErrorToString e)))
        ⟨item :: r.attemptedItems, r.synced, r.queue⟩

/-- The `{ attempted, synced, remaining }` result object. -/
structure SyncResult where
  attempted : Nat
  synced : Nat
  remaining : Nat
deriving DecidableEq, Repr

/-- Full observable outcome of one `syncOfflineQueue` call: the returned
result, the items handed to the write protocol in order, the final stored
queue, and the list of `writeQueue` calls performed (the source writes
exactly once, after the loop, and not at all on the early returns). -/
structure SyncOutcome where
  result : SyncResult
  attemptedItems : List OfflineQueueItem
  finalStore : List OfflineQueueItem
  writes : List (List OfflineQueueItem)
deriving DecidableEq, Repr

/-- `syncOfflineQueue`: no-op without a session (store untouched,
`remaining` the current count) and on an empty queue; otherwise run the
loop over a snapshot and write the resulting queue back once. -/
def syncOfflineQueue (remote : Nat → RemoteAttempt) (hasSession : Bool)
    (items : List OfflineQueueItem) (maxItems : Nat) : SyncOutcome :=
  if !hasSession then ⟨⟨0, 0, items.length⟩, [], items, []⟩
  else if items.isEmpty then ⟨⟨0, 0, 0⟩, [], items, []⟩
  else
    let r := syncGo remote maxItems items 0 items
    ⟨⟨r.attemptedItems.length, r.synced, r.queue.length⟩,
      r.attemptedItems, r.queue, [r.queue]⟩

/-! ### Sync-loop unfolding lemmas -/

theorem syncGo_nil (remote : Nat → RemoteAttempt) (maxItems a : Nat)
    (q : List OfflineQueueItem) :
    syncGo remote maxItems [] a q = ⟨[], 0, q⟩ := rfl

theorem syncGo_cons_break {remote : Nat → RemoteAttempt} {maxItems a : Nat}
    {item : OfflineQueueItem} {rest q : List OfflineQueueItem}
    (h : maxItems ≤ a) :
    syncGo remote maxItems (item :: rest) a q = ⟨[], 0, q⟩ := by
  rw [syncGo, if_pos h]

theorem syncGo_cons_ok {remote : Nat → RemoteAttempt} {maxItems a : Nat}
    {item : OfflineQueueItem} {rest q : List OfflineQueueItem} {nid : String}
    (h : ¬ maxItems ≤ a) (hok : (remote a).nodeRes = .ok nid) :
    syncGo remote maxItems (item :: rest) a q =
      ⟨item :: (syncGo remote maxItems rest (a + 1)
          (q.filter (fun x => x.id != item.id))).attemptedItems,
        (syncGo remote maxItems rest (a + 1)
          (q.filter (fun x => x.id != item.id))).synced + 1,
        (syncGo remote maxItems rest (a + 1)
          (q.filter (fun x => x.id != item.id))).queue⟩ := by
  rw [syncGo, if_neg h, createNodeWithTags_tolerant, hok]

theorem syncGo_cons_err {remote : Nat → RemoteAttempt} {maxItems a : Nat}
    {item : OfflineQueueItem} {rest q : List OfflineQueueItem} {m : String}
    (h : ¬ maxItems ≤ a) (herr : (remote a).nodeRes = .error m) :
    syncGo remote maxItems (item :: rest) a q =
      ⟨item :: (syncGo remote maxItems rest (a + 1)
          (q.map (failUpdate item.id (thrownErrorToString ⟨m, .node⟩)))).attemptedItems,
        (syncGo remote maxItems rest (a + 1)
          (q.map (failUpdate item.id (thrownErrorToString ⟨m, .node⟩)))).synced,
        (syncGo remote maxItems rest (a + 1)
          (q.map (failUpdate item.id (thrownErrorToString ⟨m, .node⟩)))).queue⟩ := by
  rw [syncGo, if_neg h, createNodeWithTags_tolerant, herr]

/-- The loop never looks past the first `maxItems - attempted` pending
items: the guarded `break` makes the tail irrelevant. -/
theorem syncGo_take (remote : Nat → RemoteAttempt) (maxItems : Nat) :
    ∀ (toGo : List OfflineQueueItem) (a : Nat) (q : List OfflineQueueItem),
      syncGo remote maxItems toGo a q =
        syncGo remote maxItems (toGo.take (maxItems - a)) a q := by
  intro toGo
  induction toGo with
  | nil => intro a q; rw [List.take_nil]
  | cons item rest ih =>
    intro a q
    by_cases hb : maxItems ≤ a
    · rw [Nat.sub_eq_zero_of_le hb, List.take_zero, syncGo_cons_break hb, syncGo_nil]
    · have hs : maxItems - a = (maxItems - (a + 1)) + 1 := by omega
      rw [hs, List.take_succ_cons]
      cases hn : (remote a).nodeRes with
      | ok nid =>
        rw [@syncGo_cons_ok remote maxItems a item rest q nid hb hn,
          @syncGo_cons_ok remote maxItems a item (rest.take (maxItems - (a + 1))) q nid hb hn,
          ih]
      | error m =>
        rw [@syncGo_cons_err remote maxItems a item rest q m hb hn,
          @syncGo_cons_err remote maxItems a item (rest.take (maxItems - (a + 1))) q m hb hn,
          ih]

/-- The items handed to the write protocol are exactly the first
`maxItems - attempted` pending items, in order. -/
theorem syncGo_attemptedItems (remote : Nat → RemoteAttempt) (maxItems : Nat) :
    ∀ (toGo : List OfflineQueueItem) (a : Nat) (q : List OfflineQueueItem),
      (syncGo remote maxItems toGo a q).attemptedItems =
        toGo.take (maxItems - a) := by
  intro toGo
  induction toGo with
  | nil => intro a q; rw [List.take_nil]; rfl
  | cons item rest ih =>
    intro a q
    by_cases hb : maxItems ≤ a
    · rw [Nat.sub_eq_zero_of_le hb, List.take_zero, syncGo_cons_break hb]
    · have hs : maxItems - a = (maxItems - (a + 1)) + 1 := by omega
      rw [hs, List.take_succ_cons]
      cases hn : (remote a).nodeRes with
      | ok nid => rw [syncGo_cons_ok hb hn]; simp [ih]
      | error m => rw [syncGo_cons_err hb hn]; simp [ih]

/-- Number of successful node inserts among `n` consecutive write-protocol
calls starting at call index `a`. -/
def okCount (remote : Nat → RemoteAttempt) : Nat → Nat → Nat
  | _, 0 => 0
  | a, Nat.succ n => (cond (nodeOk (remote a)) 1 0) + okCount remote (a + 1) n

/-- `synced` counts exactly the successful write-protocol calls among the
attempted ones. -/
theorem syncGo_synced (remote : Nat → RemoteAttempt) (maxItems : Nat) :
    ∀ (toGo : List OfflineQueueItem) (a : Nat) (q : List OfflineQueueItem),
      (syncGo remote maxItems toGo a q).synced =
        okCount remote a (syncGo remote maxItems toGo a q).attemptedItems.length := by
  intro toGo
  induction toGo with
  | nil => intro a q; rfl
  | cons item rest ih =>
    intro a q
    by_cases hb : maxItems ≤ a
    · rw [syncGo_cons_break hb]; rfl
    · cases hn : (remote a).nodeRes with
      | ok nid =>
        rw [syncGo_cons_ok hb hn]
        have hok : nodeOk (remote a) = true := by rw [nodeOk, hn]
        simp [okCount, hok, ih, Nat.add_comm]
      | error m =>
        rw [syncGo_cons_err hb hn]
        have hok : nodeOk (remote a) = false := by rw [nodeOk, hn]
        simp [okCount, hok, ih]

/-- `failUpdate` never changes `id`, `createdAt` or `payload`, and never
decreases `attempts`. -/
theorem failUpdate_fields (itemId msg : String) (z : OfflineQueueItem) :
    (failUpdate itemId msg z).id = z.id ∧
    (failUpdate itemId msg z).createdAt = z.createdAt ∧
    (failUpdate itemId msg z).payload = z.payload ∧
    z.attempts ≤ (failUpdate itemId msg z).attempts := by
  unfold failUpdate
  by_cases h : z.id == itemId <;> simp [h]

/-- Every entry of the final queue descends from an entry of the working
queue with the same `id`, `createdAt` and `payload` and no smaller
`attempts`. -/
theorem syncGo_provenance (remote : Nat → RemoteAttempt) (maxItems : Nat) :
    ∀ (toGo : List OfflineQueueItem) (a : Nat) (q : List OfflineQueueItem),
      ∀ x ∈ (syncGo remote maxItems toGo a q).queue,
        ∃ y ∈ q, x.id = y.id ∧ x.createdAt = y.createdAt ∧
          x.payload = y.payload ∧ y.attempts ≤ x.attempts := by
  intro toGo
  induction toGo with
  | nil =>
    intro a q x hx
    rw [syncGo_nil] at hx
    exact ⟨x, hx, rfl, rfl, rfl, Int.le_refl _⟩
  | cons item rest ih =>
    intro a q x hx
    by_cases hb : maxItems ≤ a
    · rw [syncGo_cons_break hb] at hx
      exact ⟨x, hx, rfl, rfl, rfl, Int.le_refl _⟩
    · cases hn : (remote a).nodeRes with
      | ok nid =>
        rw [syncGo_cons_ok hb hn] at hx
        obtain ⟨y, hy, h1, h2, h3, h4⟩ := ih (a + 1) _ x hx
        exact ⟨y, List.mem_of_mem_filter hy, h1, h2, h3, h4⟩
      | error m =>
        rw [syncGo_cons_err hb hn] at hx
        obtain ⟨y, hy, h1, h2, h3, h4⟩ := ih (a + 1) _ x hx
        obtain ⟨z, hz, hzy⟩ := List.mem_map.mp hy
        obtain ⟨f1, f2, f3, f4⟩ := failUpdate_fields item.id (thrownErrorToString ⟨m, .node⟩) z
        rw [hzy] at f1 f2 f3 f4
        exact ⟨z, hz, h1.trans f1, h2.trans f2, h3.trans f3, f4.trans h4⟩

/-- Once an attempted item's write succeeds, no entry bearing its id is
ever in the final queue (the filter removes them all, and later passes
never reintroduce an id). -/
theorem syncGo_success_removes (remote : Nat → RemoteAttempt) (maxItems : Nat) :
    ∀ (toGo : List OfflineQueueItem) (a : Nat) (q : List OfflineQueueItem)
      (i : Nat) (e : OfflineQueueItem),
      (syncGo remote maxItems toGo a q).attemptedItems[i]? = some e →
      nodeOk (remote (a + i)) = true →
      ∀ x ∈ (syncGo remote maxItems toGo a q).queue, x.id ≠ e.id := by
  intro toGo
  induction toGo with
  | nil =>
    intro a q i e he
    rw [syncGo_nil] at he
    simp at he
  | cons item rest ih =>
    intro a q i e he hok x hx hcontra
    by_cases hb : maxItems ≤ a
    · rw [syncGo_cons_break hb] at he
      simp at he
    · cases hn : (remote a).nodeRes with
      | ok nid =>
        rw [syncGo_cons_ok hb hn] at he hx
        cases i with
        | zero =>
          rw [List.getElem?_cons_zero, Option.some_inj] at he
          subst he
          obtain ⟨y, hy, h1, _, _, _⟩ := syncGo_provenance remote maxItems rest (a + 1) _ x hx
          have h2 : (y.id != item.id) = true := (List.mem_filter.mp hy).2
          rw [bne_iff_ne] at h2
          exact h2 (h1 ▸ hcontra)
        | succ j =>
          rw [List.getElem?_cons_succ] at he
          have ha : a + (j + 1) = (a + 1) + j := by omega
          rw [ha] at hok
          exact ih (a + 1) _ j e he hok x hx hcontra
      | error m =>
        rw [syncGo_cons_err hb hn] at he hx
        cases i with
        | zero =>
          rw [Nat.add_zero, nodeOk, hn] at hok
          cases hok
        | succ j =>
          rw [List.getElem?_cons_succ] at he
          have ha : a + (j + 1) = (a + 1) + j := by omega
          rw [ha] at hok
          exact ih (a + 1) _ j e he hok x hx hcontra

/-- An entry of the working queue either still has a representative of its
id in the final queue, or some attempted item with its id had a successful
write: ids disappear only through confirmed success. -/
theorem syncGo_removed_only_on_success (remote : Nat → RemoteAttempt) (maxItems : Nat) :
    ∀ (toGo : List OfflineQueueItem) (a : Nat) (q : List OfflineQueueItem),
      ∀ y ∈ q,
        (∃ x ∈ (syncGo remote maxItems toGo a q).queue, x.id = y.id) ∨
        (∃ i e, (syncGo remote maxItems toGo a q).attemptedItems[i]? = some e ∧
          e.id = y.id ∧ nodeOk (remote (a + i)) = true) := by
  intro toGo
  induction toGo with
  | nil =>
    intro a q y hy
    rw [syncGo_nil]
    exact Or.inl ⟨y, hy, rfl⟩
  | cons item rest ih =>
    intro a q y hy
    by_cases hb : maxItems ≤ a
    · rw [syncGo_cons_break hb]
      exact Or.inl ⟨y, hy, rfl⟩
    · cases hn : (remote a).nodeRes with
      | ok nid =>
        rw [syncGo_cons_ok hb hn]
        by_cases hid : y.id = item.id
        · refine Or.inr ⟨0, item, ?_, hid.symm, ?_⟩
          · rw [List.getElem?_cons_zero]
          · rw [Nat.add_zero, nodeOk, hn]
        · have hy' : y ∈ q.filter (fun x => x.id != item.id) :=
            List.mem_filter.mpr ⟨hy, bne_iff_ne.mpr hid⟩
          rcases ih (a + 1) _ y hy' with h | ⟨i, e, he, heid, hok⟩
          · exact Or.inl h
          · refine Or.inr ⟨i + 1, e, ?_, heid, ?_⟩
            · rw [List.getElem?_cons_succ]
              exact he
            · have ha : a + (i + 1) = (a + 1) + i := by omega
              rw [ha]
              exact hok
      | error m =>
        rw [syncGo_cons_err hb hn]
        have hy' : failUpdate item.id (thrownErrorToString ⟨m, .node⟩) y ∈
            q.map (failUpdate item.id (thrownErrorToString ⟨m, .node⟩)) :=
          List.mem_map_of_mem _ hy
        have hids : (failUpdate item.id (thrownErrorToString ⟨m, .node⟩) y).id = y.id :=
          (failUpdate_fields _ _ y).1
        rcases ih (a + 1) _ _ hy' with ⟨x, hx, hxeq⟩ | ⟨i, e, he, heid, hok⟩
        · exact Or.inl ⟨x, hx, hxeq.trans hids⟩
        · refine Or.inr ⟨i + 1, e, ?_, heid.trans hids, ?_⟩
          · rw [List.getElem?_cons_succ]
            exact he
          · have ha : a + (i + 1) = (a + 1) + i := by omega
            rw [ha]
            exact hok

/-- A queue entry whose id none of the pending items carries passes
through the whole loop untouched. -/
theorem syncGo_untouched (remote : Nat → RemoteAttempt) (maxItems : Nat) :
    ∀ (toGo : List OfflineQueueItem) (a : Nat) (q : List OfflineQueueItem)
      (x : OfflineQueueItem),
      (∀ t ∈ toGo, t.id ≠ x.id) → x ∈ q →
      x ∈ (syncGo remote maxItems toGo a q).queue := by
  intro toGo
  induction toGo with
  | nil =>
    intro a q x _ hx
    rw [syncGo_nil]
    exact hx
  | cons item rest ih =>
    intro a q x htg hx
    by_cases hb : maxItems ≤ a
    · rw [syncGo_cons_break hb]
      exact hx
    · have hhead : item.id ≠ x.id := htg item (List.mem_cons_self item rest)
      have hrest : ∀ t ∈ rest, t.id ≠ x.id :=
        fun t ht => htg t (List.mem_cons_of_mem item ht)
      cases hn : (remote a).nodeRes with
      | ok nid =>
        rw [syncGo_cons_ok hb hn]
        refine ih (a + 1) _ x hrest (List.mem_filter.mpr ⟨hx, ?_⟩)
        exact bne_iff_ne.mpr (fun h => hhead h.symm)
      | error m =>
        rw [syncGo_cons_err hb hn]
        refine ih (a + 1) _ x hrest ?_
        have hfx : failUpdate item.id (thrownErrorToString ⟨m, .node⟩) x = x := by
          unfold failUpdate
          rw [if_neg]
          rw [beq_iff_eq]
          exact fun h => hhead h.symm
        exact hfx ▸ List.mem_map_of_mem _ hx

/-- When the pending items have pairwise distinct ids and are all present
in the working queue, a failed attempt leaves behind exactly the attempted
entry with `attempts` bumped by one and `lastError` set to the stringified
node-stage error. -/
theorem syncGo_fail_retained (remote : Nat → RemoteAttempt) (maxItems : Nat) :
    ∀ (toGo : List OfflineQueueItem) (a : Nat) (q : List OfflineQueueItem),
      (toGo.map (fun t => t.id)).Nodup → (∀ t ∈ toGo, t ∈ q) →
      ∀ (i : Nat) (e : OfflineQueueItem) (m : String),
        (syncGo remote maxItems toGo a q).attemptedItems[i]? = some e →
        (remote (a + i)).nodeRes = .error m →
        { e with attempts := e.attempts + 1,
                 lastError := some (thrownErrorToString ⟨m, .node⟩) } ∈
          (syncGo remote maxItems toGo a q).queue := by
  intro toGo
  induction toGo with
  | nil =>
    intro a q _ _ i e m he
    rw [syncGo_nil] at he
    simp at he
  | cons item rest ih =>
    intro a q hnd hsub i e m he hm
    have hnd' := List.nodup_cons.mp hnd
    have hrest_nd : (rest.map (fun t => t.id)).Nodup := hnd'.2
    have hhead_notin : item.id ∉ rest.map (fun t => t.id) := hnd'.1
    have hrest_ne : ∀ t ∈ rest, t.id ≠ item.id := by
      intro t ht hcontra
      exact hhead_notin (hcontra ▸ List.mem_map_of_mem _ ht)
    by_cases hb : maxItems ≤ a
    · rw [syncGo_cons_break hb] at he
      simp at he
    · cases hn : (remote a).nodeRes with
      | ok nid =>
        rw [syncGo_cons_ok hb hn] at he ⊢
        cases i with
        | zero =>
          rw [Nat.add_zero, hn] at hm
          cases hm
        | succ j =>
          rw [List.getElem?_cons_succ] at he
          have ha : a + (j + 1) = (a + 1) + j := by omega
          rw [ha] at hm
          refine ih (a + 1) _ hrest_nd ?_ j e m he hm
          intro t ht
          exact List.mem_filter.mpr ⟨hsub t (List.mem_cons_of_mem item ht),
            bne_iff_ne.mpr (hrest_ne t ht)⟩
      | error m0 =>
        rw [syncGo_cons_err hb hn] at he ⊢
        cases i with
        | zero =>
          rw [List.getElem?_cons_zero, Option.some_inj] at he
          subst he
          rw [Nat.add_zero, hn] at hm
          injection hm with hm0
          subst hm0
          have hmem : failUpdate item.id (thrownErrorToString ⟨m0, .node⟩) item ∈
              q.map (failUpdate item.id (thrownErrorToString ⟨m0, .node⟩)) :=
            List.mem_map_of_mem _ (hsub item (List.mem_cons_self item rest))
          have hfe : failUpdate item.id (thrownErrorToString ⟨m0, .node⟩) item =
              { item with attempts := item.attempts + 1,
                          lastError := some (thrownErrorToString ⟨m0, .node⟩) } := by
            unfold failUpdate
            rw [if_pos (beq_iff_eq.mpr rfl)]
          refine syncGo_untouched remote maxItems rest (a + 1) _ _ ?_ (hfe ▸ hmem)
          intro t ht
          exact hrest_ne t ht
        | succ j =>
          rw [List.getElem?_cons_succ] at he
          have ha : a + (j + 1) = (a + 1) + j := by omega
          rw [ha] at hm
          refine ih (a + 1) _ hrest_nd ?_ j e m he hm
          intro t ht
          have hft : failUpdate item.id (thrownErrorToString ⟨m0, .node⟩) t = t := by
            unfold failUpdate
            rw [if_neg]
            rw [beq_iff_eq]
            exact hrest_ne t ht
          exact hft ▸ List.mem_map_of_mem _ (hsub t (List.mem_cons_of_mem item ht))

/-- The loop never duplicates an id: if the working queue's ids are
pairwise distinct, so are the final queue's. -/
theorem syncGo_ids_nodup (remote : Nat → RemoteAttempt) (maxItems : Nat) :
    ∀ (toGo : List OfflineQueueItem) (a : Nat) (q : List OfflineQueueItem),
      (q.map (fun t => t.id)).Nodup →
      ((syncGo remote maxItems toGo a q).queue.map (fun t => t.id)).Nodup := by
  intro toGo
  induction toGo with
  | nil =>
    intro a q hq
    rw [syncGo_nil]
    exact hq
  | cons item rest ih =>
    intro a q hq
    by_cases hb : maxItems ≤ a
    · rw [syncGo_cons_break hb]
      exact hq
    · cases hn : (remote a).nodeRes with
      | ok nid =>
        rw [syncGo_cons_ok hb hn]
        refine ih (a + 1) _ ?_
        exact ((List.filter_sublist q).map (fun t => t.id)).nodup hq
      | error m =>
        rw [syncGo_cons_err hb hn]
        refine ih (a + 1) _ ?_
        have hmm : (q.map (failUpdate item.id (thrownErrorToString ⟨m, .node⟩))).map
            (fun t => t.id) = q.map (fun t => t.id) := by
          rw [List.map_map]
          exact List.map_congr_left (fun z _ => (failUpdate_fields _ _ z).1)
        rw [hmm]
        exact hq

theorem filter_filter_of_imp (p r : OfflineQueueItem → Bool)
    (h : ∀ x, p x = true → r x = true) :
    ∀ q : List OfflineQueueItem, (q.filter r).filter p = q.filter p := by
  intro q
  induction q with
  | nil => rfl
  | cons x rest ih =>
    cases hr : r x with
    | true =>
      rw [List.filter_cons_of_pos hr, List.filter_cons, List.filter_cons, ih]
    | false =>
      have hp : p x = false := by
        cases hpx : p x with
        | false => rfl
        | true => rw [h x hpx] at hr; cases hr
      rw [List.filter_cons_of_neg (by rw [hr]; exact Bool.false_ne_true),
        List.filter_cons_of_neg (by rw [hp]; exact Bool.false_ne_true), ih]

theorem filter_map_of_invariant (f : OfflineQueueItem → OfflineQueueItem)
    (p : OfflineQueueItem → Bool)
    (h1 : ∀ x, p (f x) = p x) (h2 : ∀ x, p x = true → f x = x) :
    ∀ q : List OfflineQueueItem, (q.map f).filter p = q.filter p := by
  intro q
  induction q with
  | nil => rfl
  | cons x rest ih =>
    rw [List.map_cons, List.filter_cons, List.filter_cons, h1, ih]
    cases hpx : p x with
    | true => rw [h2 x hpx]
    | false => rfl

/-- Frame property of the loop: for any predicate that depends only on an
entry's id and excludes every pending item's id, the final queue filtered
by the predicate is the working queue filtered by it — those entries are
untouched and keep their relative order. -/
theorem syncGo_frame (remote : Nat → RemoteAttempt) (maxItems : Nat)
    (p : OfflineQueueItem → Bool)
    (hp : ∀ x y : OfflineQueueItem, x.id = y.id → p x = p y) :
    ∀ (toGo : List OfflineQueueItem) (a : Nat) (q : List OfflineQueueItem),
      (∀ t ∈ toGo, ∀ x, p x = true → x.id ≠ t.id) →
      (syncGo remote maxItems toGo a q).queue.filter p = q.filter p := by
  intro toGo
  induction toGo with
  | nil =>
    intro a q _
    rw [syncGo_nil]
  | cons item rest ih =>
    intro a q htg
    by_cases hb : maxItems ≤ a
    · rw [syncGo_cons_break hb]
    · have hhead : ∀ x, p x = true → x.id ≠ item.id :=
        fun x hx => htg item (List.mem_cons_self item rest) x hx
      have hrest : ∀ t ∈ rest, ∀ x, p x = true → x.id ≠ t.id :=
        fun t ht x hx => htg t (List.mem_cons_of_mem item ht) x hx
      cases hn : (remote a).nodeRes with
      | ok nid =>
        rw [syncGo_cons_ok hb hn]
        have := ih (a + 1) (q.filter (fun x => x.id != item.id)) hrest
        rw [this, filter_filter_of_imp p (fun x => x.id != item.id)
          (fun x hx => bne_iff_ne.mpr (hhead x hx))]
      | error m =>
        rw [syncGo_cons_err hb hn]
        have := ih (a + 1)
          (q.map (failUpdate item.id (thrownErrorToString ⟨m, .node⟩))) hrest
        rw [this, filter_map_of_invariant _ p
          (fun x => hp _ x (failUpdate_fields _ _ x).1)
          (fun x hx => by
            unfold failUpdate
            rw [if_neg]
            rw [beq_iff_eq]
            exact hhead x hx)]

/-- With a session and a nonempty queue, `syncOfflineQueue` is the loop
over a snapshot followed by a single write of the resulting queue. -/
theorem syncOfflineQueue_run (remote : Nat → RemoteAttempt)
    (items : List OfflineQueueItem) (maxItems : Nat) (hne : items ≠ []) :
    syncOfflineQueue remote true items maxItems =
      ⟨⟨(syncGo remote maxItems items 0 items).attemptedItems.length,
          (syncGo remote maxItems items 0 items).synced,
          (syncGo remote maxItems items 0 items).queue.length⟩,
        (syncGo remote maxItems items 0 items).attemptedItems,
        (syncGo remote maxItems items 0 items).queue,
        [(syncGo remote maxItems items 0 items).queue]⟩ := by
  rw [syncOfflineQueue, if_neg (by simp), if_neg (by simp [hne])]

/-- A minimal concrete payload for sample runs. -/
def samplePayload : NodeWritePayload :=
  ⟨.task, "sample", "", [], "inbox", none, none, none, none⟩

/-- A second, distinct concrete payload. -/
def samplePayloadB : NodeWritePayload :=
  ⟨.idea, "other", "", ["t1"], "inbox", none, none, none, none⟩

/-- A fresh queue entry with the given id and timestamp. -/
def qItem (id : String) (createdAt : Int) : OfflineQueueItem :=
  ⟨id, createdAt, samplePayload, none, 0⟩

/-- Remote behaviour: every call fully succeeds. -/
def remoteAllOk : Nat → RemoteAttempt :=
  fun _ => ⟨.ok "node-1", fun _ => .ok⟩

/-- Remote behaviour: node inserts succeed, every tag step fails. -/
def remoteTagFail : Nat → RemoteAttempt :=
  fun _ => ⟨.ok "node-1", fun _ => .upsertFail "tag upsert failed"⟩

/-- Remote behaviour: every node insert fails with a network error. -/
def remoteNodeFail : Nat → RemoteAttempt :=
  fun _ => ⟨.error "network down", fun _ => .ok⟩

/-- **C5 counterexample**: the claim says the batch is the entries with
the oldest `createdAt`, attempted in nondecreasing `createdAt` order; but
the sync loop iterates the stored array order without consulting
`createdAt`: on a stored queue `[createdAt 5, createdAt 1]` the attempted
timestamps are `[5, 1]`, not sorted. -/
theorem c5_counterexample_not_createdAt_order :
    ¬ List.Sorted (· ≤ ·)
      (((syncOfflineQueue remoteAllOk true [qItem "a" 5, qItem "b" 1] 2).attemptedItems).map
        (fun x => x.createdAt)) := by
  decide

/-- **C5 (amended)**: `syncOfflineQueue` attempts exactly the first
`min(maxItems, length)` entries of the stored queue, in stored order,
never reordering or skipping within the batch; stored order coincides with
oldest-`createdAt` order only insofar as entries were appended in
timestamp order (`createdAt` is not consulted). -/
theorem c5_batch_is_stored_prefix (remote : Nat → RemoteAttempt)
    (items : List OfflineQueueItem) (maxItems : Nat) :
    (syncOfflineQueue remote true items maxItems).attemptedItems =
      items.take maxItems ∧
    (syncOfflineQueue remote true items maxItems).result.attempted =
      min maxItems items.length := by
  cases items with
  | nil =>
    constructor
    · rw [List.take_nil]; rfl
    · rw [List.length_nil, Nat.min_zero]; rfl
  | cons h t =>
    rw [syncOfflineQueue_run remote (h :: t) maxItems (by simp)]
    have ha := syncGo_attemptedItems remote maxItems (h :: t) 0 (h :: t)
    rw [Nat.sub_zero] at ha
    exact ⟨ha, by rw [ha, List.length_take]⟩

/-- **C2**: with a session and (per the spec's data-model invariant)
pairwise-distinct ids, each attempted entry is either — on a successful
tolerant write — absent (by id) from the final queue and counted in
`synced`, or — on a thrown write — retained with `attempts` bumped by
exactly one and `lastError` set to the stringified error; every surviving
entry descends from a stored entry of the same id/createdAt/payload with
no smaller `attempts` (attempts never decrease, and ids stay distinct so
the retained update is the unique entry of its id), and an id disappears
from the queue only through a successful write. -/
theorem c2_sync_step_postcondition (remote : Nat → RemoteAttempt)
    (items : List OfflineQueueItem) (maxItems : Nat)
    (hnd : (items.map (fun t => t.id)).Nodup) :
    (∀ (i : Nat) (e : OfflineQueueItem),
      (syncOfflineQueue remote true items maxItems).attemptedItems[i]? = some e →
        (∀ nid, (remote i).nodeRes = .ok nid →
          ∀ x ∈ (syncOfflineQueue remote true items maxItems).finalStore, x.id ≠ e.id) ∧
        (∀ m, (remote i).nodeRes = .error m →
          { e with attempts := e.attempts + 1,
                   lastError := some (thrownErrorToString ⟨m, .node⟩) } ∈
            (syncOfflineQueue remote true items maxItems).finalStore)) ∧
    ((syncOfflineQueue remote true items maxItems).result.synced =
      okCount remote 0 (syncOfflineQueue remote true items maxItems).attemptedItems.length) ∧
    (∀ x ∈ (syncOfflineQueue remote true items maxItems).finalStore,
      ∃ y ∈ items, x.id = y.id ∧ x.createdAt = y.createdAt ∧
        x.payload = y.payload ∧ y.attempts ≤ x.attempts) ∧
    (((syncOfflineQueue remote true items maxItems).finalStore.map (fun t => t.id)).Nodup) ∧
    (∀ y ∈ items,
      (∀ x ∈ (syncOfflineQueue remote true items maxItems).finalStore, x.id ≠ y.id) →
      ∃ i e, (syncOfflineQueue remote true items maxItems).attemptedItems[i]? = some e ∧
        e.id = y.id ∧ nodeOk (remote i) = true) := by
  cases items with
  | nil =>
    refine ⟨?_, rfl, ?_, List.nodup_nil, ?_⟩
    · intro i e he
      simp [syncOfflineQueue] at he
    · intro x hx
      simp [syncOfflineQueue] at hx
    · intro y hy
      simp at hy
  | cons h t =>
    rw [syncOfflineQueue_run remote (h :: t) maxItems (by simp)]
    refine ⟨?_, syncGo_synced remote maxItems (h :: t) 0 (h :: t), ?_, ?_, ?_⟩
    · intro i e he
      constructor
      · intro nid hok x hx
        refine syncGo_success_removes remote maxItems (h :: t) 0 (h :: t) i e he ?_ x hx
        rw [Nat.zero_add, nodeOk, hok]
      · intro m hm
        refine syncGo_fail_retained remote maxItems (h :: t) 0 (h :: t) hnd
          (fun t' ht' => ht') i e m he ?_
        rw [Nat.zero_add]
        exact hm
    · exact syncGo_provenance remote maxItems (h :: t) 0 (h :: t)
    · exact syncGo_ids_nodup remote maxItems (h :: t) 0 (h :: t) hnd
    · intro y hy hnone
      rcases syncGo_removed_only_on_success remote maxItems (h :: t) 0 (h :: t) y hy with
        ⟨x, hx, hxy⟩ | ⟨i, e, he, heid, hok⟩
      · exact absurd hxy (hnone x hx)
      · rw [Nat.zero_add] at hok
        exact ⟨i, e, he, heid, hok⟩

/-- **C2 witness**: one stored entry, node insert failing with a network
error — after sync the entry is retained with `attempts = 1` and
`lastError` set. -/
theorem c2_sync_step_postcondition_witness :
    (⟨"a", 5, samplePayload, some "network down", 1⟩ : OfflineQueueItem) ∈
      (syncOfflineQueue remoteNodeFail true [qItem "a" 5] 3).finalStore :=
  ((c2_sync_step_postcondition remoteNodeFail [qItem "a" 5] 3 (by decide)).1
    0 (qItem "a" 5) (by decide)).2 "network down" rfl

/-- **C3**: with `allowPartialTags = true` and a successful node insert,
`createNodeWithTags` never throws whatever the tag-stage failures: it
walks every tag, returns the node id with the failing steps' messages
collected in order, and the sync engine treats such a call as success and
removes the attempted entry's id from the queue. -/
theorem c3_tolerant_preserves_primary :
    (∀ (nid : String) (tagSteps : Nat → TagStepResult) (payload : NodeWritePayload),
      createNodeWithTags ⟨.ok nid, tagSteps⟩ payload true =
        .ok (nid, tagErrorsOf tagSteps 0 payload.tags)) ∧
    (∀ (remote : Nat → RemoteAttempt) (items : List OfflineQueueItem)
      (maxItems i : Nat) (e : OfflineQueueItem) (nid : String),
      (syncOfflineQueue remote true items maxItems).attemptedItems[i]? = some e →
      (remote i).nodeRes = .ok nid →
      ∀ x ∈ (syncOfflineQueue remote true items maxItems).finalStore, x.id ≠ e.id) := by
  constructor
  · intro nid tagSteps payload
    rw [createNodeWithTags_tolerant]
  · intro remote items maxItems i e nid he hok x hx
    cases items with
    | nil => simp [syncOfflineQueue] at he
    | cons h t =>
      rw [syncOfflineQueue_run remote (h :: t) maxItems (by simp)] at he hx
      refine syncGo_success_removes remote maxItems (h :: t) 0 (h :: t) i e he ?_ x hx
      rw [Nat.zero_add, nodeOk, hok]

/-- **C3 witness**: a run where every tag upsert fails but the node insert
succeeds: the tolerant call returns the node id with the collected tag
error, and syncing such an entry removes it — the other entry survives. -/
theorem c3_tolerant_preserves_primary_witness :
    createNodeWithTags ⟨.ok "node-1", fun _ => .upsertFail "tag upsert failed"⟩
        samplePayloadB true =
      .ok ("node-1", ["tag upsert failed"]) ∧
    (qItem "b" 2).id ≠ (qItem "a" 1).id :=
  ⟨c3_tolerant_preserves_primary.1 "node-1" (fun _ => .upsertFail "tag upsert failed")
      samplePayloadB,
    c3_tolerant_preserves_primary.2 remoteTagFail [qItem "a" 1, qItem "b" 2] 1 0
      (qItem "a" 1) "node-1" (by decide) rfl (qItem "b" 2) (by decide)⟩

/-- **C9**: the success filter runs by id over the whole queue: no entry
of the final queue shares an id with any successfully synced attempted
entry; consequently, with two stored entries sharing an id and a batch cap
of 1, a success for the first silently drops the second — whose distinct
payload was never written remotely — and the second is not even attempted. -/
theorem c9_removal_by_id_over_whole_queue :
    (∀ (remote : Nat → RemoteAttempt) (items : List OfflineQueueItem)
      (maxItems i : Nat) (e : OfflineQueueItem),
      (syncOfflineQueue remote true items maxItems).attemptedItems[i]? = some e →
      nodeOk (remote i) = true →
      ∀ x ∈ (syncOfflineQueue remote true items maxItems).finalStore, x.id ≠ e.id) ∧
    ((syncOfflineQueue remoteAllOk true
        [qItem "dup" 1, ⟨"dup", 2, samplePayloadB, none, 0⟩] 1).attemptedItems =
      [qItem "dup" 1] ∧
     (syncOfflineQueue remoteAllOk true
        [qItem "dup" 1, ⟨"dup", 2, samplePayloadB, none, 0⟩] 1).finalStore = []) := by
  constructor
  · intro remote items maxItems i e he hok x hx
    cases items with
    | nil => simp [syncOfflineQueue] at he
    | cons h t =>
      rw [syncOfflineQueue_run remote (h :: t) maxItems (by simp)] at he hx
      refine syncGo_success_removes remote maxItems (h :: t) 0 (h :: t) i e he ?_ x hx
      rw [Nat.zero_add]
      exact hok
  · exact ⟨by decide, by decide⟩

/-- **C9 witness**: with two distinct ids and a successful first attempt
under a batch cap of 1, the surviving entry's id differs from the synced
one's. -/
theorem c9_removal_by_id_over_whole_queue_witness :
    (qItem "b" 2).id ≠ (qItem "a" 1).id :=
  c9_removal_by_id_over_whole_queue.1 remoteAllOk [qItem "a" 1, qItem "b" 2] 1 0
    (qItem "a" 1) (by decide) rfl (qItem "b" 2) (by decide)

/-- **C10**: entries not sharing an id with any entry of the attempted
prefix (the first `min(maxItems, length)` stored entries) pass through
sync completely unchanged and in their original relative order, and the
backing store is written exactly once, after the whole batch. -/
theorem c10_frame_unattempted_tail (remote : Nat → RemoteAttempt)
    (items : List OfflineQueueItem) (maxItems : Nat) (hne : items ≠ []) :
    (syncOfflineQueue remote true items maxItems).finalStore.filter
        (fun x => !(((items.take maxItems).map (fun t => t.id)).contains x.id)) =
      items.filter
        (fun x => !(((items.take maxItems).map (fun t => t.id)).contains x.id)) ∧
    (syncOfflineQueue remote true items maxItems).writes =
      [(syncOfflineQueue remote true items maxItems).finalStore] := by
  rw [syncOfflineQueue_run remote items maxItems hne]
  refine ⟨?_, rfl⟩
  have htake := syncGo_take remote maxItems items 0 items
  rw [Nat.sub_zero] at htake
  rw [htake]
  refine syncGo_frame remote maxItems _ ?_ (items.take maxItems) 0 items ?_
  · intro x y hxy
    rw [hxy]
  · intro t ht x hx hcontra
    rw [Bool.not_eq_true', ← Bool.not_eq_true] at hx
    exact hx (List.elem_iff.mpr (hcontra ▸ List.mem_map_of_mem _ ht))

/-- **C10 witness**: batch cap 1 over two distinct entries with a failing
write: the second entry is untouched and the store is written once. -/
theorem c10_frame_unattempted_tail_witness :
    (syncOfflineQueue remoteNodeFail true [qItem "a" 1, qItem "b" 2] 1).finalStore.filter
        (fun x => !((([qItem "a" 1, qItem "b" 2].take 1).map (fun t => t.id)).contains x.id)) =
      [qItem "a" 1, qItem "b" 2].filter
        (fun x => !((([qItem "a" 1, qItem "b" 2].take 1).map (fun t => t.id)).contains x.id)) ∧
    (syncOfflineQueue remoteNodeFail true [qItem "a" 1, qItem "b" 2] 1).writes =
      [(syncOfflineQueue remoteNodeFail true [qItem "a" 1, qItem "b" 2] 1).finalStore] :=
  c10_frame_unattempted_tail remoteNodeFail [qItem "a" 1, qItem "b" 2] 1 (by decide)

/-! ### Quick-add token parser (`src/lib/quickAddParse.ts`)

JS string primitives are modelled over the character list: `trim` and the
`\s+` split via `Char.isWhitespace` (JS `\s` also covers rare Unicode
spaces; every delimiter the parser matches is ASCII), `slice(n)` as
dropping `n` characters, `length` as the character count (they differ only
on astral-plane code units, which no recognized token contains). -/

/-- JS `s.trim()`. -/
def jsTrim (s : String) : String :=
  ⟨((s.data.dropWhile Char.isWhitespace).reverse.dropWhile Char.isWhitespace).reverse⟩

/-- JS `s.startsWith(pre)`. -/
def jsStartsWith (s pre : String) : Bool :=
  charsHasPrefix pre.data s.data

/-- JS `s.slice(n)` for `n ≥ 0`. -/
def strDrop (s : String) (n : Nat) : String :=
  ⟨s.data.drop n⟩

/-- JS `s.length`. -/
def strLen (s : String) : Nat :=
  s.data.length

/-- Accumulator for `input.trim().split(/\s+/).filter(Boolean)`: splits a
character list into its maximal whitespace-free runs (the `\s+` separator
collapses runs, `filter(Boolean)` drops the empty pieces). -/
def wordsAux (cur : List Char) : List Char → List (List Char)
  | [] => if cur.isEmpty then [] else [cur.reverse]
  | c :: rest =>
    if Char.isWhitespace c then
      if cur.isEmpty then wordsAux [] rest else cur.reverse :: wordsAux [] rest
    else wordsAux (c :: cur) rest

/-- The parser's tokenisation: trim, split on whitespace runs, drop empty
tokens. -/
def tokenize (input : String) : List String :=
  (wordsAux [] (jsTrim input).data).map (fun cs => ⟨cs⟩)

/-- The edge-punctuation class `[.,;:!?]` of `stripTrailingPunctuation`. -/
def isEdgePunct (c : Char) : Bool :=
  c == '.' || c == ',' || c == ';' || c == ':' || c == '!' || c == '?'

/-- `stripTrailingPunctuation`: remove the trailing run of `[.,;:!?]`
(the regex `/[.,;:!?]+$/` anchored at the end). -/
def stripTrailingPunctuation (value : String) : String :=
  ⟨(value.data.reverse.dropWhile isEdgePunct).reverse⟩

/-- `normalizeTag`: trim, lowercase, strip trailing punctuation. -/
def normalizeTag (raw : String) : String :=
  stripTrailingPunctuation (jsToLower (jsTrim raw))

/-- `normalizeTokenValue`: trim, strip trailing punctuation. -/
def normalizeTokenValue (raw : String) : String :=
  stripTrailingPunctuation (jsTrim raw)

/-- `isValidDueDate`: the exact pattern `/^\d{4}-\d{2}-\d{2}$/`. -/
def isValidDueDate (value : String) : Bool :=
  match value.data with
  | [y1, y2, y3, y4, h1, m1, m2, h2, d1, d2] =>
    y1.isDigit && y2.isDigit && y3.isDigit && y4.isDigit && h1 == '-' &&
      m1.isDigit && m2.isDigit && h2 == '-' && d1.isDigit && d2.isDigit
  | _ => false

/-- `STATUSES` from `src/utils/status.ts`. -/
def STATUSES : List String :=
  ["inbox", "active", "waiting", "someday", "done", "archived"]

/-- `isStatusToken`: a `!`-prefixed token of length `> 1` whose remainder,
lowercased and normalized, is a known status. -/
def isStatusToken (token : String) : Bool :=
  jsStartsWith token "!" && decide (strLen token > 1) &&
    STATUSES.contains (normalizeTokenValue (jsToLower (strDrop token 1)))

/-- `isDelimiterToken`: the recognized delimiters that stop an explicit
`title:` collection. -/
def isDelimiterToken (token : String) : Bool :=
  let lower := jsToLower token
  (jsStartsWith lower "#" && decide (strLen token > 1)) ||
    (jsStartsWith lower "@" && decide (strLen token > 1)) ||
    jsStartsWith lower "type:" || jsStartsWith lower "due:" ||
    jsStartsWith lower "title:" || isStatusToken token

/-- `QuickAddParseResult`; optional fields spread only when set are
`Option` (every value assigned is non-empty, so truthiness is `isSome`). -/
structure QuickAddParseResult where
  title : String
  tags : List String
  context : Option String
  status : Option String
  nodeType : Option String
  due_at : Option String
deriving DecidableEq, Repr

/-- The parser loop's mutable locals. -/
structure ParseState where
  tags : List String
  titleParts : List String
  explicitTitleParts : Option (List String)
  context : Option String
  status : Option String
  nodeType : Option String
  due_at : Option String
deriving DecidableEq, Repr

/-- All locals start empty/unset. -/
def initState : ParseState :=
  ⟨[], [], none, none, none, none, none⟩

/-- `titleParts.push(token)`, the loop's final fall-through. -/
def pushTitle (st : ParseState) (token : String) : ParseState :=
  { st with titleParts := st.titleParts ++ [token] }

/-- The `due:` check: an exact-pattern date is recorded, anything else
falls through to the title. -/
def dueCheck (st : ParseState) (token lower : String) : ParseState :=
  if jsStartsWith lower "due:" then
    let candidate := normalizeTokenValue (strDrop token 4)
    if isValidDueDate candidate then { st with due_at := some candidate }
    else pushTitle st token
  else pushTitle st token

/-- The `type:` check: `idea`/`task` is recorded, anything else falls
through to the `due:` check. -/
def typeCheck (st : ParseState) (token lower : String) : ParseState :=
  if jsStartsWith lower "type:" then
    let candidate := normalizeTokenValue (strDrop lower 5)
    if candidate = "idea" ∨ candidate = "task" then { st with nodeType := some candidate }
    else dueCheck st token lower
  else dueCheck st token lower

/-- One non-`title:` token, in source order: `#tag` (non-empty normalized
tag pushed, token consumed either way), `@context` (first one wins; an
all-punctuation context is consumed without being set), `!status`
(recognized statuses recorded — the inner membership re-check always
passes when `isStatusToken` does — unrecognized `!` tokens fall through),
then `type:`, `due:`, and finally the title. -/
def parseToken (st : ParseState) (token : String) : ParseState :=
  let lower := jsToLower token
  if jsStartsWith lower "#" && decide (strLen token > 1) then
    let tag := normalizeTag (strDrop token 1)
    if tag = "" then st else { st with tags := st.tags ++ [tag] }
  else if jsStartsWith lower "@" && decide (strLen token > 1) && st.context.isNone then
    let nextContext := normalizeTokenValue (strDrop token 1)
    if nextContext = "" then st else { st with context := some nextContext }
  else if isStatusToken token then
    let candidate := normalizeTokenValue (strDrop lower 1)
    if STATUSES.contains candidate then { st with status := some candidate }
    else typeCheck st token lower
  else typeCheck st token lower

/-- The `for` loop of `parseQuickAdd`.  A `title:` token collects its own
remainder and every following token up to the next delimiter into
`explicitTitleParts` (overwriting any earlier collection) and resumes
after the consumed tokens; every other token goes through `parseToken`.
Each pass consumes at least one token, so the loop finishes within
`tokens.length` passes; the `fuel` argument (always instantiated with the
token count) makes that recursion structural and never runs out. -/
def parseLoop : Nat → List String → ParseState → ParseState
  | _, [], st => st
  | 0, _ :: _, st => st
  | fuel + 1, token :: rest, st =>
    let lower := jsToLower token
    if jsStartsWith lower "title:" then
      let initial := strDrop token 6
      let collected : List String := if initial = "" then [] else [initial]
      let consumed := rest.takeWhile (fun t => !isDelimiterToken t)
      parseLoop fuel (rest.dropWhile (fun t => !isDelimiterToken t))
        { st with explicitTitleParts := some (collected ++ consumed) }
    else parseLoop fuel rest (parseToken st token)

/-- First-occurrence deduplication (`Array.from(new Set(tags))`). -/
def dedupeKeepFirst (seen : List String) : List String → List String
  | [] => []
  | t :: rest =>
    if seen.contains t then dedupeKeepFirst seen rest
    else t :: dedupeKeepFirst (t :: seen) rest

/-- `parts.join(' ')`. -/
def joinSpace (parts : List String) : String :=
  String.intercalate " " parts

/-- `parseQuickAdd`: tokenize, run the loop, deduplicate tags, join and
trim the title (the explicit title overrides the collected one). -/
def parseQuickAdd (input : String) : QuickAddParseResult :=
  let st := parseLoop (tokenize input).length (tokenize input) initState
  { title := jsTrim (joinSpace (st.explicitTitleParts.getD st.titleParts)),
    tags := dedupeKeepFirst [] st.tags,
    context := st.context,
    status := st.status,
    nodeType := st.nodeType,
    due_at := st.due_at }

/-! ### Facts about the string primitives -/

theorem toNat_ofNat_valid {n : Nat} (h : n.isValidChar) : (Char.ofNat n).toNat = n := by
  rw [Char.ofNat, dif_pos h]
  rfl

theorem toLower_toNat_of_upper (c : Char) (h : 65 ≤ c.toNat ∧ c.toNat ≤ 90) :
    (Char.toLower c).toNat = c.toNat + 32 := by
  simp only [Char.toLower, ge_iff_le]
  rw [if_pos ⟨h.1, h.2⟩]
  exact toNat_ofNat_valid (Or.inl (by omega))

theorem toLower_of_not_upper (c : Char) (h : ¬(65 ≤ c.toNat ∧ c.toNat ≤ 90)) :
    Char.toLower c = c := by
  simp only [Char.toLower, ge_iff_le]
  rw [if_neg h]

theorem toLower_idem (c : Char) : Char.toLower (Char.toLower c) = Char.toLower c := by
  by_cases h : 65 ≤ c.toNat ∧ c.toNat ≤ 90
  · have h2 := toLower_toNat_of_upper c h
    exact toLower_of_not_upper _ (by omega)
  · rw [toLower_of_not_upper c h, toLower_of_not_upper c h]

theorem head?_dropWhile_false (p : α → Bool) (l : List α) {c : α}
    (h : (l.dropWhile p).head? = some c) : p c = false := by
  have hw := List.head?_dropWhile_not p l
  rw [h] at hw
  exact hw

theorem getLast?_dropWhile_of_ne_nil (p : α → Bool) (l : List α)
    (h : l.dropWhile p ≠ []) : (l.dropWhile p).getLast? = l.getLast? := by
  obtain ⟨t, ht⟩ := List.dropWhile_suffix p (l := l)
  conv_rhs => rw [← ht]
  rw [List.getLast?_append]
  cases hs : (l.dropWhile p).getLast? with
  | some x => rfl
  | none =>
    rw [List.getLast?_eq_none_iff] at hs
    exact absurd hs h

/-- The trimmed string starts with a non-whitespace character (when
nonempty). -/
theorem jsTrim_head_not_ws (s : String) {c : Char}
    (h : (jsTrim s).data.head? = some c) : c.isWhitespace = false := by
  rw [jsTrim] at h
  rw [List.head?_reverse] at h
  have hne : (s.data.dropWhile Char.isWhitespace).reverse.dropWhile Char.isWhitespace ≠ [] := by
    intro hnil
    rw [hnil] at h
    cases h
  rw [getLast?_dropWhile_of_ne_nil _ _ hne, List.getLast?_reverse] at h
  exact head?_dropWhile_false _ _ h

/-- The trimmed string ends with a non-whitespace character (when
nonempty). -/
theorem jsTrim_last_not_ws (s : String) {c : Char}
    (h : (jsTrim s).data.getLast? = some c) : c.isWhitespace = false := by
  rw [jsTrim] at h
  rw [List.getLast?_reverse] at h
  exact head?_dropWhile_false _ _ h

/-- The punctuation-stripped string ends with a non-punctuation character
(when nonempty). -/
theorem strip_last_not_punct (s : String) {c : Char}
    (h : (stripTrailingPunctuation s).data.getLast? = some c) :
    isEdgePunct c = false := by
  rw [stripTrailingPunctuation] at h
  rw [List.getLast?_reverse] at h
  exact head?_dropWhile_false _ _ h

theorem mem_strip_subset {s : String} {c : Char}
    (h : c ∈ (stripTrailingPunctuation s).data) : c ∈ s.data := by
  rw [stripTrailingPunctuation] at h
  rw [List.mem_reverse] at h
  have := List.dropWhile_subset (l := s.data.reverse) isEdgePunct h
  rw [List.mem_reverse] at this
  exact this

theorem mem_jsToLower_fixed {s : String} {c : Char}
    (h : c ∈ (jsToLower s).data) : Char.toLower c = c := by
  rw [jsToLower] at h
  obtain ⟨c', _, hc'⟩ := List.mem_map.mp h
  rw [← hc']
  exact toLower_idem c'

/-- `normalizeTag` output is lowercase (fixed by `toLowerCase`). -/
theorem jsToLower_normalizeTag (raw : String) :
    jsToLower (normalizeTag raw) = normalizeTag raw := by
  apply String.ext
  show (normalizeTag raw).data.map Char.toLower = (normalizeTag raw).data
  have : (normalizeTag raw).data.map Char.toLower =
      (normalizeTag raw).data.map id := by
    refine List.map_congr_left ?_
    intro c hc
    exact mem_jsToLower_fixed (mem_strip_subset hc)
  rw [this, List.map_id]

/-- The well-formedness the spec requires of one parsed tag. -/
def TagOk (t : String) : Prop :=
  ¬(t = "") ∧ jsToLower t = t ∧
    ∀ c, t.data.getLast? = some c → isEdgePunct c = false

theorem tagOk_normalizeTag (raw : String) (h : ¬(normalizeTag raw = "")) :
    TagOk (normalizeTag raw) :=
  ⟨h, jsToLower_normalizeTag raw,
    fun _ hc => strip_last_not_punct (jsToLower (jsTrim raw)) hc⟩

theorem mem_dedupeKeepFirst :
    ∀ (l seen : List String) (x : String), x ∈ dedupeKeepFirst seen l →
      x ∈ l ∧ x ∉ seen := by
  intro l
  induction l with
  | nil =>
    intro seen x hx
    rw [dedupeKeepFirst] at hx
    cases hx
  | cons t rest ih =>
    intro seen x hx
    rw [dedupeKeepFirst] at hx
    by_cases hc : seen.contains t
    · rw [if_pos hc] at hx
      obtain ⟨h1, h2⟩ := ih seen x hx
      exact ⟨List.mem_cons_of_mem t h1, h2⟩
    · rw [if_neg hc] at hx
      rcases List.mem_cons.mp hx with rfl | hx'
      · refine ⟨List.mem_cons_self x rest, ?_⟩
        intro hs
        exact hc (List.elem_iff.mpr hs)
      · obtain ⟨h1, h2⟩ := ih (t :: seen) x hx'
        exact ⟨List.mem_cons_of_mem t h1, fun hs => h2 (List.mem_cons_of_mem t hs)⟩

theorem nodup_dedupeKeepFirst :
    ∀ (l seen : List String), (dedupeKeepFirst seen l).Nodup := by
  intro l
  induction l with
  | nil =>
    intro seen
    rw [dedupeKeepFirst]
    exact List.nodup_nil
  | cons t rest ih =>
    intro seen
    rw [dedupeKeepFirst]
    by_cases hc : seen.contains t
    · rw [if_pos hc]
      exact ih seen
    · rw [if_neg hc]
      refine List.nodup_cons.mpr ⟨?_, ih (t :: seen)⟩
      intro hmem
      exact (mem_dedupeKeepFirst rest (t :: seen) t hmem).2 (List.mem_cons_self t seen)

theorem pushTitle_tags (st : ParseState) (token : String) :
    (pushTitle st token).tags = st.tags := rfl

theorem dueCheck_tags (st : ParseState) (token lower : String) :
    (dueCheck st token lower).tags = st.tags := by
  simp only [dueCheck]
  split_ifs <;> rfl

theorem typeCheck_tags (st : ParseState) (token lower : String) :
    (typeCheck st token lower).tags = st.tags := by
  simp only [typeCheck]
  split_ifs <;> first | rfl | rw [dueCheck_tags]

/-- `parseToken` either leaves the tag list alone or appends one
non-empty normalized tag. -/
theorem parseToken_tags (st : ParseState) (token : String) :
    (parseToken st token).tags = st.tags ∨
    ∃ raw, ¬(normalizeTag raw = "") ∧
      (parseToken st token).tags = st.tags ++ [normalizeTag raw] := by
  simp only [parseToken]
  split_ifs with h1 h2 h3 h4 h5
  · exact Or.inl rfl
  · exact Or.inr ⟨strDrop token 1, h2, rfl⟩
  · exact Or.inl rfl
  · exact Or.inl rfl
  · exact Or.inl rfl
  · exact Or.inl (typeCheck_tags st token (jsToLower token))
  · exact Or.inl (typeCheck_tags st token (jsToLower token))

theorem parseToken_tags_ok (st : ParseState) (token : String)
    (h : ∀ t ∈ st.tags, TagOk t) : ∀ t ∈ (parseToken st token).tags, TagOk t := by
  rcases parseToken_tags st token with heq | ⟨raw, hraw, heq⟩
  · rw [heq]
    exact h
  · rw [heq]
    intro t ht
    rcases List.mem_append.mp ht with ht' | ht'
    · exact h t ht'
    · rw [List.mem_singleton.mp ht']
      exact tagOk_normalizeTag raw hraw

/-- Through the whole loop, every collected tag is well formed. -/
theorem parseLoop_tags_ok :
    ∀ (fuel : Nat) (tokens : List String),
      ∀ st : ParseState, (∀ t ∈ st.tags, TagOk t) →
        ∀ t ∈ (parseLoop fuel tokens st).tags, TagOk t := by
  intro fuel
  induction fuel with
  | zero =>
    intro tokens st hst
    cases tokens with
    | nil => exact hst
    | cons token rest => exact hst
  | succ n ih =>
    intro tokens st hst
    cases tokens with
    | nil => exact hst
    | cons token rest =>
      rw [parseLoop]
      split_ifs with h1
      · exact ih _ _ hst
      · exact ih _ _ (parseToken_tags_ok st token hst)

/-- A sample input showing two C7 violations at once: the empty input
parses to an empty title, and a tag keeps its leading punctuation. -/
theorem c7_counterexample_title_and_edge_punct :
    (parseQuickAdd "").title = "" ∧ (parseQuickAdd "#.foo!").tags = [".foo"] := by
  constructor
  · rfl
  · rfl

/-- **C7 (amended)**: for every input line, the parsed tags are non-empty,
lowercase (fixed under `toLowerCase`), deduplicated, and stripped of
*trailing* punctuation (leading punctuation is kept), and the title
carries no leading or trailing whitespace — but, unlike the claimed
invariant, it may be empty (e.g. on empty input or tag-only input). -/
theorem c7_parse_invariant (input : String) :
    ((parseQuickAdd input).tags.Nodup) ∧
    (∀ t ∈ (parseQuickAdd input).tags, ¬(t = "") ∧ jsToLower t = t ∧
      ∀ c, t.data.getLast? = some c → isEdgePunct c = false) ∧
    (∀ c, (parseQuickAdd input).title.data.head? = some c → c.isWhitespace = false) ∧
    (∀ c, (parseQuickAdd input).title.data.getLast? = some c → c.isWhitespace = false) := by
  refine ⟨nodup_dedupeKeepFirst _ [], ?_, ?_, ?_⟩
  · intro t ht
    have hmem := (mem_dedupeKeepFirst _ [] t ht).1
    exact parseLoop_tags_ok (tokenize input).length (tokenize input)
      initState (by intro t' ht'; cases ht') t hmem
  · intro c hc
    exact jsTrim_head_not_ws _ hc
  · intro c hc
    exact jsTrim_last_not_ws _ hc

/-- **C7 witness**: the invariant evaluated on the spec's own example
line. -/
theorem c7_parse_invariant_witness :
    (parseQuickAdd "Buy batteries #errands !inbox").tags.Nodup ∧
      ¬(("errands" : String) = "") :=
  ⟨(c7_parse_invariant "Buy batteries #errands !inbox").1,
    ((c7_parse_invariant "Buy batteries #errands !inbox").2.1 "errands" (by decide)).1⟩

theorem bang_data (w : String) : ("!" ++ w).data = '!' :: w.data := by
  rw [String.data_append]
  rfl

theorem jsToLower_bang (w : String) :
    jsToLower ("!" ++ w) = ⟨'!' :: (jsToLower w).data⟩ := by
  apply String.ext
  show (("!" ++ w).data).map Char.toLower = '!' :: (w.data.map Char.toLower)
  rw [bang_data, List.map_cons]
  rfl

theorem strDrop_bang (w : String) : strDrop ("!" ++ w) 1 = w := by
  apply String.ext
  show (("!" ++ w).data).drop 1 = w.data
  rw [bang_data, List.drop_one, List.tail_cons]

theorem strLen_bang (w : String) : strLen ("!" ++ w) = w.data.length + 1 := by
  rw [strLen, bang_data, List.length_cons]

theorem charsHasPrefix_cons (a b : Char) (as bs : List Char) :
    charsHasPrefix (a :: as) (b :: bs) = ((a == b) && charsHasPrefix as bs) := rfl

theorem charsHasPrefix_self_cons (a : Char) (bs : List Char) :
    charsHasPrefix [a] (a :: bs) = true := by
  rw [charsHasPrefix_cons]
  simp [charsHasPrefix]

/-- Every status-relevant probe on a `!`-token, computed: it never matches
`#`, `@`, `type:`, `due:` (or `title:`), and `isStatusToken` holds exactly
when the token has a remainder whose normalized lowercase form is a known
status. -/
theorem bang_token_probes (w : String) :
    jsStartsWith (jsToLower ("!" ++ w)) "#" = false ∧
    jsStartsWith (jsToLower ("!" ++ w)) "@" = false ∧
    jsStartsWith (jsToLower ("!" ++ w)) "type:" = false ∧
    jsStartsWith (jsToLower ("!" ++ w)) "due:" = false ∧
    isStatusToken ("!" ++ w) =
      (decide (0 < w.data.length) &&
        STATUSES.contains (normalizeTokenValue (jsToLower w))) ∧
    normalizeTokenValue (strDrop (jsToLower ("!" ++ w)) 1) =
      normalizeTokenValue (jsToLower w) := by
  have hl := jsToLower_bang w
  refine ⟨?_, ?_, ?_, ?_, ?_, ?_⟩
  · rw [hl, jsStartsWith]
    show charsHasPrefix ['#'] ('!' :: (jsToLower w).data) = false
    rw [charsHasPrefix_cons]
    rfl
  · rw [hl, jsStartsWith]
    show charsHasPrefix ['@'] ('!' :: (jsToLower w).data) = false
    rw [charsHasPrefix_cons]
    rfl
  · rw [hl, jsStartsWith]
    show charsHasPrefix ('t' :: "ype:".data) ('!' :: (jsToLower w).data) = false
    rw [charsHasPrefix_cons]
    rfl
  · rw [hl, jsStartsWith]
    show charsHasPrefix ('d' :: "ue:".data) ('!' :: (jsToLower w).data) = false
    rw [charsHasPrefix_cons]
    rfl
  · rw [isStatusToken, strDrop_bang, strLen_bang]
    have hbang : jsStartsWith ("!" ++ w) "!" = true := by
      rw [jsStartsWith]
      show charsHasPrefix ['!'] (("!" ++ w).data) = true
      rw [bang_data]
      exact charsHasPrefix_self_cons '!' w.data
    rw [hbang]
    have hgt : decide (w.data.length + 1 > 1) = decide (0 < w.data.length) := by
      by_cases h0 : 0 < w.data.length
      · rw [decide_eq_true (by omega), decide_eq_true h0]
      · rw [decide_eq_false (by omega), decide_eq_false h0]
    rw [hgt, Bool.true_and]
  · rw [hl]
    have : strDrop (⟨'!' :: (jsToLower w).data⟩ : String) 1 = jsToLower w := by
      apply String.ext
      show ('!' :: (jsToLower w).data).drop 1 = (jsToLower w).data
      rw [List.drop_one, List.tail_cons]
    rw [this]

/-- **C8**: a token `!word` sets the status exactly when `word`
(lowercased, trailing punctuation stripped) is a known status — otherwise
the whole token joins the title unchanged — and the two specified example
lines parse as claimed. -/
theorem c8_status_token_rule :
    (∀ (st : ParseState) (w : String),
      (STATUSES.contains (normalizeTokenValue (jsToLower w)) = true → ¬(w = "") →
        parseToken st ("!" ++ w) =
          { st with status := some (normalizeTokenValue (jsToLower w)) }) ∧
      (STATUSES.contains (normalizeTokenValue (jsToLower w)) = false →
        parseToken st ("!" ++ w) = pushTitle st ("!" ++ w))) ∧
    parseQuickAdd "Buy batteries #errands !inbox" =
      ⟨"Buy batteries", ["errands"], none, some "inbox", none, none⟩ ∧
    parseQuickAdd "Task !bogus" = ⟨"Task !bogus", [], none, none, none, none⟩ := by
  refine ⟨?_, by decide, by decide⟩
  intro st w
  obtain ⟨h1, h2, h3, h4, h5, h6⟩ := bang_token_probes w
  constructor
  · intro hc hw
    have hlen : 0 < w.data.length := by
      cases hd : w.data with
      | nil => exact absurd (String.ext hd) hw
      | cons a l => exact Nat.succ_pos _
    simp only [parseToken, h1, h2, h3, h4, h5, h6, hc, hlen,
      Bool.false_and, Bool.and_true, decide_eq_true hlen, Bool.true_and,
      Bool.and_false, if_false, if_true, Bool.false_eq_true, ite_false,
      decide_True, ite_true]
  · intro hc
    simp only [parseToken, h1, h2, h3, h4, h5, h6, hc,
      Bool.false_and, Bool.and_false, Bool.false_eq_true, ite_false]
    rw [typeCheck, if_neg (by rw [h3]; exact Bool.false_ne_true),
      dueCheck, if_neg (by rw [h4]; exact Bool.false_ne_true)]

/-- **C8 witness**: the rule applied at the concrete status word `inbox`
and the concrete non-status word `bogus`. -/
theorem c8_status_token_rule_witness :
    parseToken initState ("!" ++ "inbox") =
      { initState with status := some "inbox" } ∧
    parseToken initState ("!" ++ "bogus") = pushTitle initState ("!" ++ "bogus") :=
  ⟨(c8_status_token_rule.1 initState "inbox").1 (by decide) (by decide),
    (c8_status_token_rule.1 initState "bogus").2 (by decide)⟩

end MindmapPwa
